import Mathlib

/-!
Verification of the obsidian-claude-code gateway core against its
natural-language specification.

The development shallowly embeds the TypeScript sources:

* `src/app/src/lib/server/session-manager.ts` — the single-active-session
  state machine (`SessionManager`), its client fan-out, permission
  handling and the pure helper `parseClientMsg`.
* `src/app/src/lib/server/ws-ticket.ts` — stateless HMAC-signed
  WebSocket tickets (`createWsTicket` / `isValidWsTicket`).
* the crypto module (AES-256-GCM framing: `encrypt` / `decrypt`).
* `src/app/src/lib/server/claude/oauth.ts` — `needsRefresh`,
  `loadTokens`, `storeTokens` over the key-value config store.
* the setup exchange endpoint (`POST /api/setup/claude/exchange`) —
  trimming and code#state splitting of the pasted authorization value.
* `src/app/src/lib/server/debug-logger.ts` and the error ring buffer —
  bounded FIFO logs.

JavaScript strings are modelled as `List Char`; machine numbers that the
code only compares and adds are modelled as `Nat` / `Int` / `Rat`.
External primitives (HMAC-SHA256, the AES-GCM core, `Date` parsing) are
parameters of the embedded functions; every theorem that relies on a
property of such a parameter states it as an explicit hypothesis and is
accompanied by a witness instantiation showing the hypotheses are
satisfiable.
-/

namespace Gateway

/-! ## Generic list/string helpers shared by several modules -/

/-- Split a character list at the first occurrence of `sep`
(JS `indexOf` + two slices); `none` when `sep` does not occur. -/
def firstSplit (sep : Char) : List Char → Option (List Char × List Char)
  | [] => none
  | c :: rest =>
    if c = sep then some ([], rest)
    else
      match firstSplit sep rest with
      | some (a, b) => some (c :: a, b)
      | none => none

/-- Split a character list at the last occurrence of `sep`
(JS `lastIndexOf` + two slices); `none` when `sep` does not occur. -/
def lastSplit (sep : Char) : List Char → Option (List Char × List Char)
  | [] => none
  | c :: rest =>
    match lastSplit sep rest with
    | some (a, b) => some (c :: a, b)
    | none => if c = sep then some ([], rest) else none

/-- Split a character list on every occurrence of `sep`
(JS `String.prototype.split`). -/
def splitAll (sep : Char) : List Char → List (List Char)
  | [] => [[]]
  | c :: rest =>
    match splitAll sep rest with
    | [] => [[]]
    | h :: t => if c = sep then [] :: h :: t else (c :: h) :: t

end Gateway

namespace Gateway.SessionManager

/-! ## Session manager (`src/app/src/lib/server/session-manager.ts`)

The class keeps a state label, a set of WebSocket clients, a map of
pending permissions, the active DB session id and a running cost total.
We model the mutable object as a record and each method as a function on
it.  A client's `send` calls are recorded in its `received` list; the
database `sessions` table is the `dbSessions` list.  `clearTimeout` and
promise resolution are recorded in the `cancelledTimeouts` and
`resolutions` event logs.  JS `Map` keys are unique, so the pending map
is a duplicate-free list of ids and deletion is `List.filter`. -/

/-- The `SessionState` union type. -/
inductive SessionState where
  | idle
  | running
  | waiting_permission
  | error
  | done
deriving DecidableEq, Repr

/-- Result values produced by resolving a pending permission
(`PermissionResult` of the SDK: allow, or deny with a message). -/
inductive PermissionResult where
  | allow
  | deny (message : String)
deriving DecidableEq, Repr

/-- Server→client wire messages (`WsServerMsg`), with the fields the
session manager actually sends. -/
inductive WsServerMsg where
  | session_state (state : SessionState)
  | cost (totalUsd : ℚ)
  | text (content : String)
  | tool_start (tool : String) (toolUseId : String)
  | permission_request (id : String) (tool : String) (description : String)
  | error (message : String)
deriving DecidableEq, Repr

/-- A connected WebSocket client: identity, `readyState`, and the log of
messages delivered to it via `send`. -/
structure WsClientConn where
  cid : ℕ
  readyState : ℕ
  received : List WsServerMsg
deriving DecidableEq, Repr

/-- A row of the persisted `sessions` table, with the columns the
embedded operations touch. -/
structure DbSession where
  id : String
  status : String
deriving DecidableEq, Repr

/-- The mutable fields of the `SessionManager` singleton, plus event
logs making timeout cancellation and permission resolution observable. -/
structure SM where
  state : SessionState
  clients : List WsClientConn
  pendingPermissions : List String
  cancelledTimeouts : List String
  resolutions : List (String × PermissionResult)
  abortActive : Bool
  activeDbSessionId : Option String
  totalCostUsd : ℚ
  dbSessions : List DbSession
deriving DecidableEq, Repr

/-- Record one `client.send(encodeMsg msg)` call. -/
def sendTo (c : WsClientConn) (m : WsServerMsg) : WsClientConn :=
  { c with received := c.received ++ [m] }

/-- The `broadcast` method: send to every client whose connection is
open (`readyState === 1`); individual send errors are swallowed. -/
def broadcast (sm : SM) (m : WsServerMsg) : SM :=
  { sm with clients := sm.clients.map (fun c => if c.readyState = 1 then sendTo c m else c) }

/-- The private `setState` helper: assign the state, then broadcast a
`session_state` event. -/
def setState (sm : SM) (next : SessionState) : SM :=
  broadcast { sm with state := next } (.session_state next)

/-- The `addClient` method: add to the set, send the current state to
the new connection, then the current cost when it is positive. -/
def addClient (sm : SM) (c : WsClientConn) : SM :=
  let c1 := sendTo c (.session_state sm.state)
  let c2 := if 0 < sm.totalCostUsd then sendTo c1 (.cost sm.totalCostUsd) else c1
  { sm with clients := sm.clients ++ [c2] }

/-- The `removeClient` method. -/
def removeClient (sm : SM) (c : WsClientConn) : SM :=
  { sm with clients := sm.clients.filter (fun x => x.cid ≠ c.cid) }

/-- The `handlePermissionResponse` method: look up the pending
permission by id; absent → no-op; present → cancel its timeout, delete
it from the map, transition back to `running`, then resolve it with
allow or deny (message `User denied.`). -/
def handlePermissionResponse (sm : SM) (id : String) (allow : Bool) : SM :=
  if id ∈ sm.pendingPermissions then
    let sm1 : SM :=
      { sm with
          cancelledTimeouts := sm.cancelledTimeouts ++ [id]
          pendingPermissions := sm.pendingPermissions.filter (fun x => x ≠ id) }
    let sm2 := setState sm1 .running
    { sm2 with
        resolutions := sm2.resolutions ++
          [(id, if allow then .allow else .deny "User denied.")] }
  else sm

/-- A JSON value as produced by `JSON.parse`.  Objects keep their
key/value pairs in source order; `JSON.parse` lets a later duplicate
key override an earlier one, which `getField` reproduces. -/
inductive Json where
  | null
  | bool (b : Bool)
  | num (q : ℚ)
  | str (s : String)
  | arr (elems : List Json)
  | obj (fields : List (String × Json))

/-- Property access `parsed.key` on a parsed JSON object: the last
binding of the key wins, absent key is `undefined` (`none`). -/
def getField (fields : List (String × Json)) (key : String) : Option Json :=
  fields.foldl (fun acc kv => if kv.1 = key then some kv.2 else acc) none

/-- Client→server wire messages (`WsClientMsg`). -/
inductive WsClientMsg where
  | message (content : String)
  | permission_response (id : String) (allow : Bool)
  | interrupt
deriving DecidableEq, Repr

/-- Validation part of `parseClientMsg`, applied to the value returned
by `JSON.parse`: the value must be a non-null object (`typeof` check);
`type` must be the string `message` with a string `content`, or
`permission_response` with a string `id` and boolean `allow`, or
`interrupt`; anything else yields `null`.  A parsed array passes the
`typeof` check but has no `type` property, so it also yields `null`. -/
def validateClientMsg (j : Json) : Option WsClientMsg :=
  match j with
  | .obj fields =>
    match getField fields "type" with
    | some (.str t) =>
      if t = "message" then
        match getField fields "content" with
        | some (.str c) => some (.message c)
        | _ => none
      else if t = "permission_response" then
        match getField fields "id", getField fields "allow" with
        | some (.str i), some (.bool a) => some (.permission_response i a)
        | _, _ => none
      else if t = "interrupt" then some .interrupt
      else none
    | _ => none
  | _ => none

/-- The exported `parseClientMsg` helper.  `JSON.parse` is external;
its outcome is the argument: `none` models a parse exception (caught,
returning `null`), `some j` a successfully parsed value. -/
def parseClientMsg (parsed : Option Json) : Option WsClientMsg :=
  match parsed with
  | none => none
  | some j => validateClientMsg j

/-- Errors thrown by session-manager methods. -/
inductive SMError where
  | invalidState
  | noActiveSession
deriving DecidableEq, Repr

/-- The `startSession` method up to its prompt return: the guard throws
`InvalidState` unless the state is idle, done or error; otherwise it
records the fresh id, resets the cost, arms the abort controller,
inserts the DB row with status `running`, transitions to `running` and
returns the new session id.  `randomUUID()` is passed in as
`sessionId`; the background SDK loop is outside this model. -/
def startSession (sm : SM) (sessionId : String) : SM × Except SMError String :=
  if sm.state ≠ .idle ∧ sm.state ≠ .done ∧ sm.state ≠ .error then
    (sm, .error .invalidState)
  else
    let sm1 : SM :=
      { sm with
          activeDbSessionId := some sessionId
          totalCostUsd := 0
          abortActive := true
          dbSessions := sm.dbSessions ++ [⟨sessionId, "running"⟩] }
    (setState sm1 .running, .ok sessionId)

end Gateway.SessionManager

namespace Gateway.Oauth

/-! ## OAuth token persistence (`src/app/src/lib/server/claude/oauth.ts`)

The key-value config store (`getConfig` / `setConfig` / `deleteConfig`)
is an association list read through its most recent binding.  The
crypto functions and `Date` parsing are parameters: `encryptF` /
`decryptF` stand for `encrypt` / `decrypt` of the crypto module and
`dateParse` for `new Date(s).getTime()`. -/

/-- The persisted key-value configuration table. -/
abbrev Config := List (String × String)

/-- Read a key (`getConfig`): the most recent binding, else `null`. -/
def getConfig (cfg : Config) (k : String) : Option String :=
  (cfg.find? (fun kv => kv.1 = k)).map (fun kv => kv.2)

/-- Upsert a key (`setConfig`). -/
def setConfig (cfg : Config) (k v : String) : Config :=
  (k, v) :: cfg.filter (fun kv => kv.1 ≠ k)

/-- Delete a key (`deleteConfig`). -/
def deleteConfig (cfg : Config) (k : String) : Config :=
  cfg.filter (fun kv => kv.1 ≠ k)

/-- The `OAuthTokens` record: access and optional refresh token plus
ISO-datetime expiry and refresh instants (kept as strings, as in the
code). -/
structure OAuthTokens where
  accessToken : String
  refreshToken : Option String
  expiresAt : String
  refreshedAt : String
deriving DecidableEq, Repr

/-- The ISO rendering of the Unix epoch, `new Date(0).toISOString()`. -/
def epochISO : String := "1970-01-01T00:00:00.000Z"

/-- The `storeTokens` function: encrypt and persist the access token,
persist expiry and refreshed-at as plain strings, and persist the
encrypted refresh token only when it is present (and, JS truthiness,
non-empty). -/
def storeTokens (encryptF : String → String) (tokens : OAuthTokens) (cfg : Config) : Config :=
  let c1 := setConfig cfg "claude_oauth_token" (encryptF tokens.accessToken)
  let c2 := setConfig c1 "claude_token_expires_at" tokens.expiresAt
  let c3 := setConfig c2 "claude_token_refreshed_at" tokens.refreshedAt
  match tokens.refreshToken with
  | some r => if r = "" then c3 else setConfig c3 "claude_refresh_token" (encryptF r)
  | none => c3

/-- The `loadTokens` function: `null` when no (truthy) encrypted access
token is stored; otherwise decrypt it, default the expiry to the epoch
when absent, default refreshed-at to the expiry when absent, and
decrypt the refresh token when (truthily) present. -/
def loadTokens (decryptF : String → String) (cfg : Config) : Option OAuthTokens :=
  match getConfig cfg "claude_oauth_token" with
  | none => none
  | some raw =>
    if raw = "" then none
    else
      let expiresAt := (getConfig cfg "claude_token_expires_at").getD epochISO
      let refreshedAt := (getConfig cfg "claude_token_refreshed_at").getD expiresAt
      let rawRefresh := getConfig cfg "claude_refresh_token"
      some
        { accessToken := decryptF raw
          expiresAt := expiresAt
          refreshedAt := refreshedAt
          refreshToken :=
            match rawRefresh with
            | some rr => if rr = "" then none else some (decryptF rr)
            | none => none }

/-- The `needsRefresh` predicate: true when `expiresAt` is absent (or
empty — JS falsiness), or when it is within `thresholdSeconds` of
`nowMs`.  The code's default threshold is 30 minutes (1800 s). -/
def needsRefresh (dateParse : String → ℤ) (expiresAt : Option String)
    (thresholdSeconds : ℤ) (nowMs : ℤ) : Bool :=
  match expiresAt with
  | none => true
  | some s =>
    if s = "" then true
    else decide (dateParse s - nowMs < thresholdSeconds * 1000)

/-- Concrete reversible stand-in for `encrypt` used by witnesses:
prepend a marker character. -/
def encOne (s : String) : String := String.mk ('E' :: s.data)

/-- Concrete stand-in for `decrypt` inverting `encOne`: drop the
marker character. -/
def decOne (s : String) : String := String.mk s.data.tail

end Gateway.Oauth

namespace Gateway.Exchange

/-! ## Setup-time code exchange (`POST /api/setup/claude/exchange`)

The endpoint reads `body.code`, trims it, and splits it at the first
`#` into the authorization code and the embedded state (`null` when no
`#` occurs). -/

/-- Whitespace characters stripped by `String.prototype.trim` (the
ASCII ones; the pasted values at issue contain no exotic Unicode
space). -/
def isJsWhitespace (c : Char) : Bool :=
  c = ' ' ∨ c = '\t' ∨ c = '\n' ∨ c = '\r' ∨ c = '\x0b' ∨ c = '\x0c'

/-- JS `String.prototype.trim`: strip leading and trailing whitespace. -/
def trimJs (l : List Char) : List Char :=
  ((l.dropWhile isJsWhitespace).reverse.dropWhile isJsWhitespace).reverse

/-- The code`#`state parsing step of the exchange endpoint:
`code.trim()`, then `indexOf('#')`; `-1` keeps the whole value as the
code with a `null` state, otherwise the prefix is the code and the
suffix after the first `#` is the state. -/
def parseExchangeCode (raw : List Char) : List Char × Option (List Char) :=
  let code := trimJs raw
  match firstSplit '#' code with
  | none => (code, none)
  | some (a, b) => (a, some b)

end Gateway.Exchange

namespace Gateway.RingBuffer

/-! ## Observability buffers

Two distinct in-memory buffers exist: the debug ring of
`src/app/src/lib/server/debug-logger.ts` (`RING_SIZE = 200`, no
scrubbing) and the error buffer of the `pushError` module
(`MAX_ENTRIES = 30`, secret-scrubbing applied to message and stack).
The `scrub` regex pipeline is a parameter of `pushError`. -/

/-- An entry of the debug ring (`DebugEntry`): ISO timestamp, tag and
message (the optional structured `data` is irrelevant to the claims). -/
structure DebugEntry where
  ts : String
  tag : String
  msg : String
deriving DecidableEq, Repr

/-- Capacity of the debug ring. -/
def RING_SIZE : ℕ := 200

/-- The `debug` function's ring-buffer effect: append the entry as
given — no scrubbing — then drop the oldest entry when the length
exceeds `RING_SIZE`. -/
def debugPush (ring : List DebugEntry) (e : DebugEntry) : List DebugEntry :=
  let r := ring ++ [e]
  if RING_SIZE < r.length then r.tail else r

/-- An entry of the error buffer (`ErrorEntry`): Unix-ms timestamp,
message and optional stack trace. -/
structure ErrorEntry where
  ts : ℕ
  message : String
  stack : Option String
deriving DecidableEq, Repr

/-- Capacity of the error buffer. -/
def MAX_ENTRIES : ℕ := 30

/-- The `pushError` function: append the entry with `scrub` applied to
the message and to the stack when present, then drop the oldest entry
when the length exceeds `MAX_ENTRIES`. -/
def pushError (scrub : String → String) (buf : List ErrorEntry) (ts : ℕ)
    (message : String) (stack : Option String) : List ErrorEntry :=
  let b := buf ++ [⟨ts, scrub message, stack.map scrub⟩]
  if MAX_ENTRIES < b.length then b.tail else b

end Gateway.RingBuffer

namespace Gateway.WsTicket

/-! ## WebSocket auth tickets (`src/app/src/lib/server/ws-ticket.ts`)

A ticket is `<timestamp_base36>.<nonce_base64url>.<hmac_base64url>`.
The HMAC-SHA256 primitive is the parameter `hmac` (secret, payload →
mac); the random nonce is a parameter of `createWsTicket`.  Node's
`timingSafeEqual` throws on buffers of different length, and the code
catches that and returns false, so acceptance is exactly string
equality with the expected ticket. -/

/-- Validity window of a ticket (`TICKET_TTL_MS`). -/
def TICKET_TTL_MS : ℕ := 30000

/-- Lowercase base-36 digit character (`Number.prototype.toString(36)`
digit alphabet `0-9a-z`). -/
def digitChar36 (d : ℕ) : Char :=
  if d < 10 then Char.ofNat (48 + d) else Char.ofNat (87 + d)

/-- Numeric value of a base-36 digit character; `parseInt(_, 36)` is
case-insensitive. -/
def digit36? (c : Char) : Option ℕ :=
  if '0' ≤ c ∧ c ≤ '9' then some (c.toNat - 48)
  else if 'a' ≤ c ∧ c ≤ 'z' then some (c.toNat - 87)
  else if 'A' ≤ c ∧ c ≤ 'Z' then some (c.toNat - 55)
  else none

/-- Accumulator loop of `toString(36)`: peel base-36 digits from the
least significant end. -/
def toBase36Go (n : ℕ) (acc : List Char) : List Char :=
  if h : n < 36 then digitChar36 n :: acc
  else toBase36Go (n / 36) (digitChar36 (n % 36) :: acc)
termination_by n
decreasing_by exact Nat.div_lt_self (by omega) (by omega)

/-- JS `Number.prototype.toString(36)` for a non-negative integer. -/
def toBase36 (n : ℕ) : List Char := toBase36Go n []

/-- JS `parseInt(s, 36)` on the inputs occurring here (no sign, no
leading whitespace): the value of the longest base-36 digit prefix,
`NaN` (`none`) when there is none. -/
def parse36 (s : List Char) : Option ℕ :=
  let ds := s.takeWhile (fun c => (digit36? c).isSome)
  if ds = [] then none
  else some (ds.foldl (fun a c => a * 36 + (digit36? c).getD 0) 0)

/-- The `createWsTicket` function: payload `ts_base36.nonce`, then the
MAC over the payload appended after a dot. -/
def createWsTicket (hmac : List Char → List Char → List Char) (secret : List Char)
    (nowMs : ℕ) (nonce : List Char) : List Char :=
  let payload := toBase36 nowMs ++ '.' :: nonce
  payload ++ '.' :: hmac secret payload

/-- The `isValidWsTicket` function: reject when the secret is absent or
shorter than 32 characters; split at the last dot; compare the whole
ticket against `payload.hmac(payload)` (constant-time in the code; a
length mismatch throws and is caught, yielding false — both collapse
to plain equality); then parse the base-36 timestamp before the first
dot of the payload and accept exactly when `now - ts < 30000`. -/
def isValidWsTicket (hmac : List Char → List Char → List Char) (secret : List Char)
    (nowMs : ℕ) (ticket : List Char) : Bool :=
  if secret.length < 32 then false
  else
    match lastSplit '.' ticket with
    | none => false
    | some (payload, _) =>
      let expected := payload ++ '.' :: hmac secret payload
      if ticket ≠ expected then false
      else
        match firstSplit '.' payload with
        | none => false
        | some (tsSeg, _) =>
          match parse36 tsSeg with
          | none => false
          | some ts => decide ((nowMs : ℤ) - ts < TICKET_TTL_MS)

end Gateway.WsTicket

namespace Gateway.Crypto

/-! ## AES-256-GCM framing (the crypto module)

`encrypt` renders `iv_hex:tag_hex:ciphertext_hex`; `decrypt` splits on
`:`, rejects a wrong part count or empty iv/tag segments with
*InvalidFormat*, hex-decodes the segments, and the GCM final step
fails with *AuthenticationFailed* unless the tag authenticates the
ciphertext.  The AES-GCM core is abstracted as parameters: `enc iv
plain` is the ciphertext bytes, `dec iv ct` the decrypted string and
`tagOf iv ct` the authentication tag; the random iv of an `encrypt`
call is a parameter.  Node's `Buffer.from(s, 'hex')` parses hex
case-insensitively and stops at the first invalid or incomplete pair,
which `hexDecode` reproduces. -/

/-- Value of a hex digit character, case-insensitive as in Node's hex
decoding. -/
def hexVal? (c : Char) : Option ℕ :=
  if '0' ≤ c ∧ c ≤ '9' then some (c.toNat - 48)
  else if 'a' ≤ c ∧ c ≤ 'f' then some (c.toNat - 87)
  else if 'A' ≤ c ∧ c ≤ 'F' then some (c.toNat - 55)
  else none

/-- Node `buf.toString('hex')`: lowercase, two digits per byte. -/
def hexEncode : List ℕ → List Char
  | [] => []
  | b :: rest =>
    WsTicket.digitChar36 (b / 16) :: WsTicket.digitChar36 (b % 16) :: hexEncode rest

/-- Node `Buffer.from(s, 'hex')`: consume digit pairs, stopping at the
first invalid or incomplete pair. -/
def hexDecode : List Char → List ℕ
  | c1 :: c2 :: rest =>
    match hexVal? c1, hexVal? c2 with
    | some h, some l => (16 * h + l) :: hexDecode rest
    | _, _ => []
  | _ => []

/-- The two failure modes of `decrypt`: a malformed encoded value, or
a GCM authentication failure. -/
inductive CryptoError where
  | invalidFormat
  | authenticationFailed
deriving DecidableEq, Repr

/-- The `encrypt` function: fresh-iv AES-256-GCM, encoded as
`iv_hex:tag_hex:ciphertext_hex`. -/
def encrypt (enc : List ℕ → String → List ℕ) (tagOf : List ℕ → List ℕ → List ℕ)
    (iv : List ℕ) (plain : String) : List Char :=
  let ct := enc iv plain
  hexEncode iv ++ ':' :: (hexEncode (tagOf iv ct) ++ ':' :: hexEncode ct)

/-- The `decrypt` function: split on `:`; anything but three parts
with non-empty iv and tag segments (the ciphertext segment may be
empty for empty plaintext) is *InvalidFormat*; then hex-decode and run
GCM, which fails with *AuthenticationFailed* unless the decoded tag
authenticates the decoded ciphertext. -/
def decrypt (dec : List ℕ → List ℕ → String) (tagOf : List ℕ → List ℕ → List ℕ)
    (encoded : List Char) : Except CryptoError String :=
  match splitAll ':' encoded with
  | [ivHex, tagHex, ctHex] =>
    if ivHex = [] ∨ tagHex = [] then .error .invalidFormat
    else
      let iv := hexDecode ivHex
      let tag := hexDecode tagHex
      let ct := hexDecode ctHex
      if tagOf iv ct = tag then .ok (dec iv ct) else .error .authenticationFailed
  | _ => .error .invalidFormat

end Gateway.Crypto

-- ===========================================================================
-- Theorems
-- ===========================================================================

namespace Gateway

theorem firstSplit_of_not_mem {sep : Char} {l : List Char} (h : sep ∉ l) :
    firstSplit sep l = none := by
  induction l with
  | nil => rfl
  | cons c rest ih =>
    simp only [List.mem_cons, not_or] at h
    simp [firstSplit, Ne.symm h.1, ih h.2]

theorem firstSplit_append {sep : Char} {a : List Char} (b : List Char)
    (h : sep ∉ a) : firstSplit sep (a ++ sep :: b) = some (a, b) := by
  induction a with
  | nil => simp [firstSplit]
  | cons c rest ih =>
    simp only [List.mem_cons, not_or] at h
    simp [firstSplit, Ne.symm h.1, ih h.2]

theorem lastSplit_of_not_mem {sep : Char} {l : List Char} (h : sep ∉ l) :
    lastSplit sep l = none := by
  induction l with
  | nil => rfl
  | cons c rest ih =>
    simp only [List.mem_cons, not_or] at h
    simp [lastSplit, Ne.symm h.1, ih h.2]

theorem lastSplit_append {sep : Char} {a : List Char} (b : List Char)
    (h : sep ∉ b) : lastSplit sep (a ++ sep :: b) = some (a, b) := by
  induction a with
  | nil => simp [lastSplit, lastSplit_of_not_mem h]
  | cons c rest ih => simp [lastSplit, ih]

theorem splitAll_ne_nil (sep : Char) (l : List Char) : splitAll sep l ≠ [] := by
  cases l with
  | nil => simp [splitAll]
  | cons c rest =>
    simp only [splitAll]
    cases splitAll sep rest with
    | nil => simp
    | cons h t =>
      by_cases hc : c = sep <;> simp [hc]

theorem splitAll_of_not_mem {sep : Char} {l : List Char} (h : sep ∉ l) :
    splitAll sep l = [l] := by
  induction l with
  | nil => rfl
  | cons c rest ih =>
    simp only [List.mem_cons, not_or] at h
    simp only [splitAll, ih h.2]
    simp [Ne.symm h.1]

theorem splitAll_append {sep : Char} {a : List Char} (b : List Char)
    (h : sep ∉ a) : splitAll sep (a ++ sep :: b) = a :: splitAll sep b := by
  induction a with
  | nil =>
    simp only [List.nil_append, splitAll]
    cases hb : splitAll sep b with
    | nil => exact absurd hb (splitAll_ne_nil sep b)
    | cons h t => simp
  | cons c rest ih =>
    simp only [List.mem_cons, not_or] at h
    simp only [List.cons_append, splitAll, List.append_eq]
    rw [ih h.2]
    simp [Ne.symm h.1]

end Gateway

namespace Gateway.SessionManager

/-- C1: `startSession` fails with an InvalidState error, leaving the
manager unchanged, when the current state is `running` or
`waiting_permission`; from `idle`, `done` or `error` it appends a
persisted session record with status `running`, transitions the state
to `running`, and returns the new session id. -/
theorem startSession_state_machine (sm : SM) (sid : String) :
    ((sm.state = .running ∨ sm.state = .waiting_permission) →
        startSession sm sid = (sm, .error .invalidState)) ∧
    ((sm.state = .idle ∨ sm.state = .done ∨ sm.state = .error) →
      ∃ sm', startSession sm sid = (sm', .ok sid) ∧
        sm'.state = .running ∧
        sm'.dbSessions = sm.dbSessions ++ [⟨sid, "running"⟩] ∧
        sm'.activeDbSessionId = some sid) := by
  constructor
  · rintro (h | h) <;> simp [startSession, h, setState, broadcast]
  · rintro (h | h | h) <;>
    · refine ⟨setState
        { sm with
            activeDbSessionId := some sid
            totalCostUsd := 0
            abortActive := true
            dbSessions := sm.dbSessions ++ [⟨sid, "running"⟩] } .running, ?_, ?_, ?_, ?_⟩ <;>
        simp [startSession, h, setState, broadcast]

/-- Witness for C1: a concrete run of both branches — from `running`
the call fails with InvalidState and changes nothing, from `idle` it
succeeds and persists the record. -/
theorem startSession_state_machine_witness :
    (startSession ⟨.running, [], [], [], [], true, none, 0, []⟩ "s1" =
      (⟨.running, [], [], [], [], true, none, 0, []⟩, .error .invalidState)) ∧
    (∃ sm', startSession ⟨.idle, [], [], [], [], false, none, 0, []⟩ "s2" = (sm', .ok "s2") ∧
      sm'.state = .running ∧
      sm'.dbSessions = ([] : List DbSession) ++ [⟨"s2", "running"⟩] ∧
      sm'.activeDbSessionId = some "s2") :=
  ⟨(startSession_state_machine ⟨.running, [], [], [], [], true, none, 0, []⟩ "s1").1 (Or.inl rfl),
   (startSession_state_machine ⟨.idle, [], [], [], [], false, none, 0, []⟩ "s2").2 (Or.inl rfl)⟩

/-- C2: `handlePermissionResponse` is a no-op when no pending
permission has the given id; when one exists its timeout is cancelled,
it is removed from the pending map, the state transitions to `running`
and it resolves with allow or deny — hence a further response with the
same id is a no-op and each pending permission resolves at most once. -/
theorem handlePermissionResponse_spec (sm : SM) (id : String) (allow allow' : Bool) :
    (id ∉ sm.pendingPermissions → handlePermissionResponse sm id allow = sm) ∧
    (id ∈ sm.pendingPermissions →
      (handlePermissionResponse sm id allow).state = .running ∧
      (handlePermissionResponse sm id allow).pendingPermissions =
        sm.pendingPermissions.filter (fun x => x ≠ id) ∧
      id ∉ (handlePermissionResponse sm id allow).pendingPermissions ∧
      (handlePermissionResponse sm id allow).cancelledTimeouts =
        sm.cancelledTimeouts ++ [id] ∧
      (handlePermissionResponse sm id allow).resolutions =
        sm.resolutions ++ [(id, if allow then .allow else .deny "User denied.")]) ∧
    (handlePermissionResponse (handlePermissionResponse sm id allow) id allow' =
      handlePermissionResponse sm id allow) := by
  have noop : ∀ (s : SM) (i : String) (al : Bool),
      i ∉ s.pendingPermissions → handlePermissionResponse s i al = s :=
    fun s i al hi => by simp [handlePermissionResponse, hi]
  refine ⟨noop sm id allow, fun h => ?_, ?_⟩
  · refine ⟨by simp [handlePermissionResponse, h, setState, broadcast],
      by simp [handlePermissionResponse, h, setState, broadcast],
      ?_,
      by simp [handlePermissionResponse, h, setState, broadcast],
      by simp [handlePermissionResponse, h, setState, broadcast]⟩
    simp [handlePermissionResponse, h, setState, broadcast, List.mem_filter]
  · by_cases h : id ∈ sm.pendingPermissions
    · have hnot : id ∉ (handlePermissionResponse sm id allow).pendingPermissions := by
        simp [handlePermissionResponse, h, setState, broadcast, List.mem_filter]
      exact noop (handlePermissionResponse sm id allow) id allow' hnot
    · rw [noop sm id allow h]
      exact noop sm id allow' h

/-- Witness for C2: a concrete manager with pending permission `t1`;
the response allows it, a duplicate response is a no-op. -/
theorem handlePermissionResponse_spec_witness :
    (handlePermissionResponse ⟨.idle, [], [], [], [], false, none, 0, []⟩ "t1" true =
      ⟨.idle, [], [], [], [], false, none, 0, []⟩) ∧
    ((handlePermissionResponse ⟨.waiting_permission, [], ["t1"], [], [], true, none, 0, []⟩
        "t1" true).state = .running ∧
      (handlePermissionResponse ⟨.waiting_permission, [], ["t1"], [], [], true, none, 0, []⟩
        "t1" true).pendingPermissions = (["t1"].filter (fun x => x ≠ "t1")) ∧
      "t1" ∉ (handlePermissionResponse ⟨.waiting_permission, [], ["t1"], [], [], true, none, 0, []⟩
        "t1" true).pendingPermissions ∧
      (handlePermissionResponse ⟨.waiting_permission, [], ["t1"], [], [], true, none, 0, []⟩
        "t1" true).cancelledTimeouts = [] ++ ["t1"] ∧
      (handlePermissionResponse ⟨.waiting_permission, [], ["t1"], [], [], true, none, 0, []⟩
        "t1" true).resolutions = [] ++ [("t1", if true then .allow else .deny "User denied.")]) :=
  ⟨(handlePermissionResponse_spec ⟨.idle, [], [], [], [], false, none, 0, []⟩ "t1" true true).1
      (by simp),
   (handlePermissionResponse_spec
      ⟨.waiting_permission, [], ["t1"], [], [], true, none, 0, []⟩ "t1" true true).2.1
      (by simp)⟩

/-- C8: registering a new subscriber delivers to it first the current
state as a `session_state` event, then a `cost` event exactly when the
total cost is non-zero, and delivers nothing to any other subscriber;
the operation is total (never fails).  Costs are non-negative USD
amounts, under which the code's `> 0` test coincides with the claim's
non-zero test. -/
theorem addClient_first_events (sm : SM) (c : WsClientConn)
    (hfresh : c.received = []) (hcost : 0 ≤ sm.totalCostUsd) :
    addClient sm c =
      { sm with clients := sm.clients ++
          [{ c with received :=
              .session_state sm.state ::
                (if sm.totalCostUsd ≠ 0 then [.cost sm.totalCostUsd] else []) }] } := by
  rcases lt_or_eq_of_le hcost with h | h
  · simp [addClient, sendTo, h, ne_of_gt h, hfresh]
  · simp [addClient, sendTo, ← h, hfresh]

/-- Witness for C8: a concrete manager in state `running` with total
cost 5 and one existing subscriber; the fresh subscriber receives the
state event then the cost event, the existing subscriber nothing. -/
theorem addClient_first_events_witness :
    addClient ⟨.running, [⟨1, 1, [.text "old"]⟩], [], [], [], true, some "s", 5, []⟩ ⟨7, 1, []⟩ =
      { state := .running
        clients := [⟨1, 1, [.text "old"]⟩,
          ⟨7, 1, .session_state .running ::
            (if (5 : ℚ) ≠ 0 then [.cost 5] else [])⟩]
        pendingPermissions := []
        cancelledTimeouts := []
        resolutions := []
        abortActive := true
        activeDbSessionId := some "s"
        totalCostUsd := 5
        dbSessions := [] } :=
  addClient_first_events ⟨.running, [⟨1, 1, [.text "old"]⟩], [], [], [], true, some "s", 5, []⟩
    ⟨7, 1, []⟩ rfl (by norm_num)

/-- C9: `parseClientMsg` is total (never throws) and returns a message
exactly when `JSON.parse` succeeded with an object whose `type` is the
string `message` together with a string `content`, or
`permission_response` together with a string `id` and boolean `allow`,
or `interrupt`; every other input — parse failure, non-object, unknown
type, wrong field types — yields `null`. -/
theorem parseClientMsg_characterization (r : Option Json) (m : WsClientMsg) :
    parseClientMsg r = some m ↔
      ∃ fields, r = some (Json.obj fields) ∧
        ((∃ c, getField fields "type" = some (.str "message") ∧
            getField fields "content" = some (.str c) ∧ m = .message c) ∨
         (∃ i a, getField fields "type" = some (.str "permission_response") ∧
            getField fields "id" = some (.str i) ∧
            getField fields "allow" = some (.bool a) ∧ m = .permission_response i a) ∨
         (getField fields "type" = some (.str "interrupt") ∧ m = .interrupt)) := by
  cases r with
  | none => simp [parseClientMsg]
  | some j =>
    cases j with
    | obj fields =>
      simp only [parseClientMsg, validateClientMsg, Option.some.injEq, Json.obj.injEq,
        exists_eq_left']
      cases htype : getField fields "type" with
      | none => simp
      | some tj =>
        cases tj with
        | str t =>
          by_cases h1 : t = "message"
          · subst h1
            cases hc : getField fields "content" with
            | none => simp
            | some cj => cases cj <;> simp [WsClientMsg.message.injEq, eq_comm]
          · by_cases h2 : t = "permission_response"
            · subst h2
              cases hi : getField fields "id" with
              | none =>
                cases ha : getField fields "allow" with
                | none => simp [h1]
                | some aj => cases aj <;> simp [h1]
              | some ij =>
                cases ha : getField fields "allow" with
                | none => cases ij <;> simp [h1]
                | some aj =>
                  cases ij <;> cases aj <;>
                    simp [h1, WsClientMsg.permission_response.injEq, eq_comm]
            · by_cases h3 : t = "interrupt"
              · subst h3; simp [h1, h2, eq_comm]
              · simp [h1, h2, h3]
        | null => simp
        | bool b => simp
        | num q => simp
        | arr l => simp
        | obj l2 => simp
    | null => simp [parseClientMsg, validateClientMsg]
    | bool b => simp [parseClientMsg, validateClientMsg]
    | num q => simp [parseClientMsg, validateClientMsg]
    | str s => simp [parseClientMsg, validateClientMsg]
    | arr l => simp [parseClientMsg, validateClientMsg]

end Gateway.SessionManager

namespace Gateway.Oauth

theorem find?_key_filter (cfg : Config) {k k' : String} (h : k' ≠ k) :
    List.find? (fun kv => kv.1 = k') (cfg.filter (fun kv => kv.1 ≠ k)) =
      List.find? (fun kv => kv.1 = k') cfg := by
  induction cfg with
  | nil => rfl
  | cons kv rest ih =>
    by_cases hk : kv.1 = k
    · have h2 : ¬(kv.1 = k') := fun hc => h (hc ▸ hk)
      rw [List.filter_cons_of_neg (by simp [hk]), List.find?_cons_of_neg _ (by simp [h2]), ih]
    · rw [List.filter_cons_of_pos (by simp [hk])]
      by_cases hk' : kv.1 = k'
      · rw [List.find?_cons_of_pos _ (by simp [hk']), List.find?_cons_of_pos _ (by simp [hk'])]
      · rw [List.find?_cons_of_neg _ (by simp [hk']), List.find?_cons_of_neg _ (by simp [hk']),
          ih]

theorem getConfig_set_same (cfg : Config) (k v : String) :
    getConfig (setConfig cfg k v) k = some v := by
  simp [getConfig, setConfig, List.find?]

theorem getConfig_set_other (cfg : Config) {k k' : String} (v : String) (h : k' ≠ k) :
    getConfig (setConfig cfg k v) k' = getConfig cfg k' := by
  simp only [getConfig, setConfig, List.find?]
  rw [decide_eq_false (by simpa using Ne.symm h : ¬((k, v).1 = k'))]
  rw [find?_key_filter cfg h]

theorem decOne_encOne (s : String) : decOne (encOne s) = s := by
  cases s with
  | mk data => rfl

theorem encOne_ne_empty (s : String) : encOne s ≠ "" := by
  intro h
  have h2 : ('E' :: s.data) = ([] : List Char) := congrArg String.data h
  exact List.noConfusion h2

/-- C5 (amended): `storeTokens` followed by `loadTokens` returns the
stored record — the access and refresh tokens survive the
encrypt/decrypt round trip and the timestamps come back as stored —
provided the record carries a (non-empty) refresh token, or no refresh
token was previously persisted.  (When the record has no refresh token
but the config store already holds one, `storeTokens` does not delete
it and `loadTokens` returns the stale token: see the counterexample.)
Hypotheses `hd`/`he` state that `decrypt` inverts `encrypt` and that
ciphertexts are non-empty, both true of the AES-GCM module whose
output always contains two colons. -/
theorem loadTokens_storeTokens (e d : String → String) (tk : OAuthTokens) (cfg : Config)
    (hd : ∀ s, d (e s) = s)
    (he : ∀ s, e s ≠ "")
    (hrt : match tk.refreshToken with
           | some r => r ≠ ""
           | none => getConfig cfg "claude_refresh_token" = none) :
    loadTokens d (storeTokens e tk cfg) = some tk := by
  obtain ⟨a, rt, ex, ra⟩ := tk
  cases rt with
  | some r =>
    simp only at hrt
    have hstore : storeTokens e ⟨a, some r, ex, ra⟩ cfg =
        setConfig (setConfig (setConfig (setConfig cfg "claude_oauth_token" (e a))
          "claude_token_expires_at" ex) "claude_token_refreshed_at" ra)
          "claude_refresh_token" (e r) := by
      simp [storeTokens, hrt]
    have g1 : getConfig (storeTokens e ⟨a, some r, ex, ra⟩ cfg) "claude_oauth_token" =
        some (e a) := by
      rw [hstore, getConfig_set_other _ _ (by decide), getConfig_set_other _ _ (by decide),
        getConfig_set_other _ _ (by decide), getConfig_set_same]
    have g2 : getConfig (storeTokens e ⟨a, some r, ex, ra⟩ cfg) "claude_token_expires_at" =
        some ex := by
      rw [hstore, getConfig_set_other _ _ (by decide), getConfig_set_other _ _ (by decide),
        getConfig_set_same]
    have g3 : getConfig (storeTokens e ⟨a, some r, ex, ra⟩ cfg) "claude_token_refreshed_at" =
        some ra := by
      rw [hstore, getConfig_set_other _ _ (by decide), getConfig_set_same]
    have g4 : getConfig (storeTokens e ⟨a, some r, ex, ra⟩ cfg) "claude_refresh_token" =
        some (e r) := by
      rw [hstore, getConfig_set_same]
    simp [loadTokens, g1, g2, g3, g4, he a, he r, hd]
  | none =>
    simp only at hrt
    have hstore : storeTokens e ⟨a, none, ex, ra⟩ cfg =
        setConfig (setConfig (setConfig cfg "claude_oauth_token" (e a))
          "claude_token_expires_at" ex) "claude_token_refreshed_at" ra := by
      simp [storeTokens]
    have g1 : getConfig (storeTokens e ⟨a, none, ex, ra⟩ cfg) "claude_oauth_token" =
        some (e a) := by
      rw [hstore, getConfig_set_other _ _ (by decide), getConfig_set_other _ _ (by decide),
        getConfig_set_same]
    have g2 : getConfig (storeTokens e ⟨a, none, ex, ra⟩ cfg) "claude_token_expires_at" =
        some ex := by
      rw [hstore, getConfig_set_other _ _ (by decide), getConfig_set_same]
    have g3 : getConfig (storeTokens e ⟨a, none, ex, ra⟩ cfg) "claude_token_refreshed_at" =
        some ra := by
      rw [hstore, getConfig_set_same]
    have g4 : getConfig (storeTokens e ⟨a, none, ex, ra⟩ cfg) "claude_refresh_token" =
        none := by
      rw [hstore, getConfig_set_other _ _ (by decide), getConfig_set_other _ _ (by decide),
        getConfig_set_other _ _ (by decide)]
      exact hrt
    simp [loadTokens, g1, g2, g3, g4, he a, hd]

/-- Witness for C5: a concrete store/load round trip for a record with
a refresh token (on an empty store) and for one without. -/
theorem loadTokens_storeTokens_witness :
    ((∀ s, decOne (encOne s) = s) ∧ (∀ s, encOne s ≠ "") ∧
      loadTokens decOne (storeTokens encOne ⟨"a1", some "r1", "x1", "y1"⟩ []) =
        some ⟨"a1", some "r1", "x1", "y1"⟩) ∧
    loadTokens decOne (storeTokens encOne ⟨"a2", none, "x2", "y2"⟩ []) =
      some ⟨"a2", none, "x2", "y2"⟩ :=
  ⟨⟨decOne_encOne, encOne_ne_empty,
    loadTokens_storeTokens encOne decOne ⟨"a1", some "r1", "x1", "y1"⟩ []
      decOne_encOne encOne_ne_empty (by decide)⟩,
   loadTokens_storeTokens encOne decOne ⟨"a2", none, "x2", "y2"⟩ []
      decOne_encOne encOne_ne_empty (by decide)⟩

/-- Counterexample for C5 as stated: store a record carrying refresh
token `r1`, then store a record without a refresh token; `loadTokens`
does not return the second record — it still reports refresh token
`r1`, because `storeTokens` never deletes the `claude_refresh_token`
key. -/
theorem loadTokens_storeTokens_counterexample :
    loadTokens decOne
        (storeTokens encOne ⟨"a2", none, "x2", "y2"⟩
          (storeTokens encOne ⟨"a1", some "r1", "x1", "y1"⟩ [])) =
      some ⟨"a2", some "r1", "x2", "y2"⟩ ∧
    (⟨"a2", some "r1", "x2", "y2"⟩ : OAuthTokens) ≠ ⟨"a2", none, "x2", "y2"⟩ := by
  constructor
  · decide
  · decide

/-- C10: with an encrypted access token stored but the
`claude_token_expires_at` key absent, `loadTokens` does not return
null — the record's `expiresAt` defaults to the epoch ISO instant and
`refreshedAt` falls back to the same value — and `needsRefresh` on
that `expiresAt` is true for every non-negative clock value.
`hparse` pins the external `Date` parser on the epoch string. -/
theorem loadTokens_missing_expiry (d : String → String) (dateParse : String → ℤ)
    (cfg : Config) (raw : String) (now : ℤ)
    (hacc : getConfig cfg "claude_oauth_token" = some raw) (hraw : raw ≠ "")
    (hexp : getConfig cfg "claude_token_expires_at" = none)
    (href : getConfig cfg "claude_token_refreshed_at" = none)
    (hparse : dateParse epochISO = 0) (hnow : 0 ≤ now) :
    ∃ tk, loadTokens d cfg = some tk ∧
      tk.expiresAt = epochISO ∧ tk.refreshedAt = epochISO ∧
      needsRefresh dateParse (some tk.expiresAt) 1800 now = true := by
  refine ⟨⟨d raw,
      (match getConfig cfg "claude_refresh_token" with
       | some rr => if rr = "" then none else some (d rr)
       | none => none), epochISO, epochISO⟩, ?_, rfl, rfl, ?_⟩
  · simp [loadTokens, hacc, hexp, href, hraw]
  · simp only [needsRefresh]
    rw [if_neg (by decide), hparse]
    simp only [decide_eq_true_eq]
    omega

/-- Witness for C10: a concrete one-key store holding only the
encrypted access token. -/
theorem loadTokens_missing_expiry_witness :
    getConfig [("claude_oauth_token", "ENC")] "claude_oauth_token" = some "ENC" ∧
    ∃ tk, loadTokens (fun s => s) [("claude_oauth_token", "ENC")] = some tk ∧
      tk.expiresAt = epochISO ∧ tk.refreshedAt = epochISO ∧
      needsRefresh (fun _ => 0) (some tk.expiresAt) 1800 0 = true :=
  ⟨by decide,
   loadTokens_missing_expiry (fun s => s) (fun _ => 0) [("claude_oauth_token", "ENC")]
     "ENC" 0 (by decide) (by decide) (by decide) (by decide) rfl (by decide)⟩

end Gateway.Oauth

namespace Gateway.RingBuffer

/-- C7 (amended): there are two observability buffers.  The debug ring
holds at most 200 entries, evicting the oldest (FIFO) when full, and
stores every entry verbatim — no scrubbing.  The separate error buffer
applies the secret-scrubbing pipeline to the message and to the stack
trace before storage, holds at most 30 entries and evicts the oldest
when full. -/
theorem ring_buffers_spec (ring : List DebugEntry) (e : DebugEntry)
    (scrub : String → String) (buf : List ErrorEntry) (ts : ℕ)
    (msg : String) (stack : Option String)
    (hring : ring.length ≤ RING_SIZE) (hbuf : buf.length ≤ MAX_ENTRIES) :
    (debugPush ring e =
      if ring.length = RING_SIZE then ring.tail ++ [e] else ring ++ [e]) ∧
    (debugPush ring e).length ≤ RING_SIZE ∧
    (pushError scrub buf ts msg stack =
      if buf.length = MAX_ENTRIES then
        buf.tail ++ [⟨ts, scrub msg, stack.map scrub⟩]
      else buf ++ [⟨ts, scrub msg, stack.map scrub⟩]) ∧
    (pushError scrub buf ts msg stack).length ≤ MAX_ENTRIES := by
  have hR : RING_SIZE = 200 := rfl
  have hM : MAX_ENTRIES = 30 := rfl
  have hdebug : debugPush ring e =
      if ring.length = RING_SIZE then ring.tail ++ [e] else ring ++ [e] := by
    by_cases h : ring.length = RING_SIZE
    · have hne : ring ≠ [] := by
        intro hnil
        rw [hnil] at h
        simp [RING_SIZE] at h
      simp only [debugPush, List.length_append, List.length_singleton]
      rw [if_pos (by omega), List.tail_append_of_ne_nil hne, if_pos h]
    · have hlt : ring.length < RING_SIZE := lt_of_le_of_ne hring h
      simp only [debugPush, List.length_append, List.length_singleton]
      rw [if_neg (by omega), if_neg h]
  have herr : pushError scrub buf ts msg stack =
      if buf.length = MAX_ENTRIES then
        buf.tail ++ [⟨ts, scrub msg, stack.map scrub⟩]
      else buf ++ [⟨ts, scrub msg, stack.map scrub⟩] := by
    by_cases h : buf.length = MAX_ENTRIES
    · have hne : buf ≠ [] := by
        intro hnil
        rw [hnil] at h
        simp [MAX_ENTRIES] at h
      simp only [pushError, List.length_append, List.length_singleton]
      rw [if_pos (by omega), List.tail_append_of_ne_nil hne, if_pos h]
    · have hlt : buf.length < MAX_ENTRIES := lt_of_le_of_ne hbuf h
      simp only [pushError, List.length_append, List.length_singleton]
      rw [if_neg (by omega), if_neg h]
  refine ⟨hdebug, ?_, herr, ?_⟩
  · rw [hdebug]
    by_cases h : ring.length = RING_SIZE
    · rw [if_pos h]
      simp only [List.length_append, List.length_singleton]
      have := List.length_tail ring
      omega
    · rw [if_neg h]
      have hlt : ring.length < RING_SIZE := lt_of_le_of_ne hring h
      simp only [List.length_append, List.length_singleton]
      omega
  · rw [herr]
    by_cases h : buf.length = MAX_ENTRIES
    · rw [if_pos h]
      simp only [List.length_append, List.length_singleton]
      have := List.length_tail buf
      omega
    · rw [if_neg h]
      have hlt : buf.length < MAX_ENTRIES := lt_of_le_of_ne hbuf h
      simp only [List.length_append, List.length_singleton]
      omega

/-- Witness for C7 (amended): one concrete push into each buffer from
a one-entry state, with the identity pipeline standing in for the
scrub regexes. -/
theorem ring_buffers_spec_witness :
    ([(⟨"t0", "a", "m0"⟩ : DebugEntry)].length ≤ RING_SIZE ∧
        debugPush [⟨"t0", "a", "m0"⟩] ⟨"t1", "b", "m1"⟩ =
          (if ([(⟨"t0", "a", "m0"⟩ : DebugEntry)].length = RING_SIZE) then
            [(⟨"t0", "a", "m0"⟩ : DebugEntry)].tail ++ [⟨"t1", "b", "m1"⟩]
          else [⟨"t0", "a", "m0"⟩] ++ [⟨"t1", "b", "m1"⟩])) ∧
      pushError (fun s => s) [⟨0, "e0", none⟩] 1 "e1" (some "st") =
        (if ([(⟨0, "e0", none⟩ : ErrorEntry)].length = MAX_ENTRIES) then
          [(⟨0, "e0", none⟩ : ErrorEntry)].tail ++ [⟨1, "e1", (some "st").map (fun s => s)⟩]
        else [⟨0, "e0", none⟩] ++ [⟨1, "e1", (some "st").map (fun s => s)⟩]) :=
  ⟨⟨by decide,
    (ring_buffers_spec [⟨"t0", "a", "m0"⟩] ⟨"t1", "b", "m1"⟩ (fun s => s)
      [⟨0, "e0", none⟩] 1 "e1" (some "st") (by decide) (by decide)).1⟩,
   (ring_buffers_spec [⟨"t0", "a", "m0"⟩] ⟨"t1", "b", "m1"⟩ (fun s => s)
      [⟨0, "e0", none⟩] 1 "e1" (some "st") (by decide) (by decide)).2.2.1⟩

set_option maxRecDepth 4000 in
/-- Counterexample for C7 as stated: the 200-entry debug ring stores a
message containing a bearer token verbatim — no secret-scrubbing is
applied before storage — and the buffer that does scrub (the error
buffer) evicts its oldest entry once 30 entries are held, not 200:
pushing 31 entries leaves 30 and entry 0 is gone. -/
theorem ring_buffers_counterexample :
    (debugPush [] ⟨"t0", "ws-handler", "Bearer SECRETTOKENVALUE"⟩ =
      [⟨"t0", "ws-handler", "Bearer SECRETTOKENVALUE"⟩]) ∧
    ((List.range 31).foldl (fun b i => pushError (fun s => s) b i "m" none) []).length = 30 ∧
    (⟨0, "m", none⟩ : ErrorEntry) ∉
      (List.range 31).foldl (fun b i => pushError (fun s => s) b i "m" none) [] := by
  refine ⟨by decide, by decide, by decide⟩

end Gateway.RingBuffer

namespace Gateway.Exchange

theorem dropWhile_append_all {p : Char → Bool} {w : List Char} (l : List Char)
    (h : ∀ c ∈ w, p c = true) : (w ++ l).dropWhile p = l.dropWhile p := by
  induction w with
  | nil => rfl
  | cons c t ih =>
    simp only [List.cons_append, List.dropWhile_cons, h c (by simp), if_true]
    exact ih fun x hx => h x (by simp [hx])

theorem trimJs_sandwich (w1 w2 mid : List Char)
    (h1 : ∀ c ∈ w1, isJsWhitespace c = true)
    (h2 : ∀ c ∈ w2, isJsWhitespace c = true)
    (hh : ∀ c t, mid = c :: t → isJsWhitespace c = false)
    (hl : ∀ c t, mid.reverse = c :: t → isJsWhitespace c = false)
    (hne : mid ≠ []) :
    trimJs (w1 ++ (mid ++ w2)) = mid := by
  unfold trimJs
  rw [dropWhile_append_all _ h1]
  have hmw : (mid ++ w2).dropWhile isJsWhitespace = mid ++ w2 := by
    cases hm : mid with
    | nil => exact absurd hm hne
    | cons c t =>
      simp only [List.cons_append, List.dropWhile_cons, hh c t hm]
      simp
  rw [hmw, List.reverse_append]
  rw [dropWhile_append_all _ (fun c hc => h2 c (List.mem_reverse.mp hc))]
  have hmr : mid.reverse.dropWhile isJsWhitespace = mid.reverse := by
    cases hr : mid.reverse with
    | nil => simp [hr]
    | cons c t =>
      simp only [List.dropWhile_cons, hl c t hr]
      simp
  rw [hmr, List.reverse_reverse]

/-- C6: the exchange endpoint first trims the pasted value, then
splits it at the first `#` into the authorization code and the state:
`abc#xyz` parses to code `abc` and state `xyz`; a value with no `#` is
treated entirely as the code with a null state; `  abc#xy  ` trims
first and yields code `abc`, state `xy`.  The last conjunct is the
general law: for any whitespace padding around a hash-free,
whitespace-free code and a whitespace-free state, the parse returns
exactly that code and state. -/
theorem parseExchangeCode_spec :
    (parseExchangeCode ("abc#xyz").data = (("abc").data, some ("xyz").data)) ∧
    (parseExchangeCode ("abc").data = (("abc").data, none)) ∧
    (parseExchangeCode ("  abc#xy  ").data = (("abc").data, some ("xy").data)) ∧
    (∀ raw : List Char, '#' ∉ trimJs raw → parseExchangeCode raw = (trimJs raw, none)) ∧
    (∀ w1 w2 a b : List Char,
      (∀ c ∈ w1, isJsWhitespace c = true) →
      (∀ c ∈ w2, isJsWhitespace c = true) →
      (∀ c ∈ a, isJsWhitespace c = false ∧ c ≠ '#') →
      (∀ c ∈ b, isJsWhitespace c = false) →
      parseExchangeCode (w1 ++ ((a ++ ('#' :: b)) ++ w2)) = (a, some b)) := by
  refine ⟨by decide, by decide, by decide, ?_, ?_⟩
  · intro raw h
    simp only [parseExchangeCode, firstSplit_of_not_mem h]
  · intro w1 w2 a b hw1 hw2 ha hb
    have hhash : ('#' : Char) ∉ a := fun hc => (ha '#' hc).2 rfl
    have htrim : trimJs (w1 ++ ((a ++ ('#' :: b)) ++ w2)) = a ++ ('#' :: b) := by
      exact trimJs_sandwich w1 w2 (a ++ ('#' :: b)) hw1 hw2
        (by
          intro c t hct
          cases a with
          | nil =>
            simp only [List.nil_append] at hct
            injection hct with h1 _
            rw [← h1]
            decide
          | cons x xs =>
            simp only [List.cons_append] at hct
            injection hct with h1 _
            rw [← h1]
            exact (ha x (by simp)).1)
        (by
          intro c t hct
          rw [List.reverse_append, List.reverse_cons] at hct
          cases hbr : b.reverse with
          | nil =>
            rw [hbr] at hct
            simp only [List.nil_append, List.cons_append] at hct
            injection hct with h1 _
            rw [← h1]
            decide
          | cons y ys =>
            rw [hbr] at hct
            simp only [List.cons_append] at hct
            injection hct with h1 _
            rw [← h1]
            exact hb y (List.mem_reverse.mp (by simp [hbr])))
        (by
          intro hnil
          have : ('#' : Char) ∈ a ++ ('#' :: b) := by simp
          rw [hnil] at this
          exact absurd this (by simp))
    simp only [parseExchangeCode, htrim, firstSplit_append _ hhash]

/-- Witness for C6's general conjuncts: concrete whitespace padding
around code `ab` and state `xy`, and a concrete hash-free value. -/
theorem parseExchangeCode_spec_witness :
    parseExchangeCode ([' '] ++ ((("ab").data ++ ('#' :: ("xy").data)) ++ [' '])) =
      (("ab").data, some ("xy").data) ∧
    parseExchangeCode ("plaincode").data = (trimJs ("plaincode").data, none) :=
  ⟨parseExchangeCode_spec.2.2.2.2 [' '] [' '] ("ab").data ("xy").data
      (by decide) (by decide) (by decide) (by decide),
   parseExchangeCode_spec.2.2.2.1 ("plaincode").data (by decide)⟩

end Gateway.Exchange

namespace Gateway.WsTicket

theorem digit36_digitChar36 {d : ℕ} (h : d < 36) :
    digit36? (digitChar36 d) = some d := by
  interval_cases d <;> decide

theorem isSome_digit36_digitChar36 {d : ℕ} (h : d < 36) :
    (digit36? (digitChar36 d)).isSome = true := by
  rw [digit36_digitChar36 h]
  rfl

theorem toBase36Go_digits (n : ℕ) :
    ∀ (acc : List Char), (∀ c ∈ acc, (digit36? c).isSome = true) →
      ∀ c ∈ toBase36Go n acc, (digit36? c).isSome = true := by
  induction n using Nat.strong_induction_on with
  | _ n ih =>
    intro acc hacc c hc
    rw [toBase36Go] at hc
    split at hc
    · rcases List.mem_cons.mp hc with h | h
      · subst h
        exact isSome_digit36_digitChar36 (by omega)
      · exact hacc c h
    · rename_i hn
      refine ih (n / 36) (Nat.div_lt_self (by omega) (by omega))
        (digitChar36 (n % 36) :: acc) ?_ c hc
      intro x hx
      rcases List.mem_cons.mp hx with h | h
      · subst h
        exact isSome_digit36_digitChar36 (Nat.mod_lt n (by omega))
      · exact hacc x h

theorem toBase36Go_ne_nil (n : ℕ) : ∀ (acc : List Char), toBase36Go n acc ≠ [] := by
  induction n using Nat.strong_induction_on with
  | _ n ih =>
    intro acc
    rw [toBase36Go]
    split
    · simp
    · rename_i hn
      exact ih (n / 36) (Nat.div_lt_self (by omega) (by omega)) _

theorem foldl_toBase36Go (n : ℕ) :
    ∀ (acc : List Char),
      (toBase36Go n acc).foldl (fun a c => a * 36 + (digit36? c).getD 0) 0 =
        acc.foldl (fun a c => a * 36 + (digit36? c).getD 0) n := by
  induction n using Nat.strong_induction_on with
  | _ n ih =>
    intro acc
    rw [toBase36Go]
    split
    · rename_i hn
      simp [List.foldl_cons, digit36_digitChar36 hn]
    · rename_i hn
      rw [ih (n / 36) (Nat.div_lt_self (by omega) (by omega)) (digitChar36 (n % 36) :: acc)]
      simp only [List.foldl_cons, digit36_digitChar36 (Nat.mod_lt n (by omega)), Option.getD_some]
      congr 1
      omega

theorem parse36_toBase36 (n : ℕ) : parse36 (toBase36 n) = some n := by
  have hall : ∀ c ∈ toBase36Go n [], (digit36? c).isSome = true :=
    toBase36Go_digits n [] (by simp)
  simp only [parse36, toBase36]
  rw [List.takeWhile_eq_self_iff.mpr hall]
  rw [if_neg (toBase36Go_ne_nil n [])]
  rw [foldl_toBase36Go n []]
  rfl

theorem toBase36_no_dot (n : ℕ) : '.' ∉ toBase36 n := by
  intro h
  simp only [toBase36] at h
  have h2 := toBase36Go_digits n [] (by simp) '.' h
  simp [digit36?] at h2

end Gateway.WsTicket

namespace Gateway.WsTicket

/-- C3: for a ticket produced by `createWsTicket` at time `t` (with the
configured secret of length ≥ 32, a dot-free nonce and a dot-free MAC
alphabet, as base64url guarantees), `isValidWsTicket` at time `now`
returns true exactly when `now - t < 30000` ms — the HMAC of a genuine
ticket always verifies; a ticket whose timestamp segment is empty is
rejected even when its MAC is valid; a ticket whose MAC segment differs
from the HMAC of its payload (tampered, or of a different byte length)
is rejected without throwing; and every ticket is rejected when the
secret is absent or shorter than 32 characters. -/
theorem wsTicket_validity (hmac : List Char → List Char → List Char) (secret : List Char)
    (t nowMs : ℕ) (nonce : List Char)
    (hsec : 32 ≤ secret.length)
    (hnonce : '.' ∉ nonce)
    (hmacdot : ∀ s p, '.' ∉ hmac s p) :
    (isValidWsTicket hmac secret nowMs (createWsTicket hmac secret t nonce) =
      decide ((nowMs : ℤ) - t < TICKET_TTL_MS)) ∧
    (∀ m : List Char, '.' ∉ m →
      isValidWsTicket hmac secret nowMs (('.' :: nonce) ++ '.' :: m) = false) ∧
    (∀ m : List Char, '.' ∉ m → m ≠ hmac secret (toBase36 t ++ '.' :: nonce) →
      isValidWsTicket hmac secret nowMs ((toBase36 t ++ '.' :: nonce) ++ '.' :: m) = false) ∧
    (∀ (secret2 ticket : List Char), secret2.length < 32 →
      isValidWsTicket hmac secret2 nowMs ticket = false) := by
  have hsecneg : ¬(secret.length < 32) := by omega
  refine ⟨?_, ?_, ?_, ?_⟩
  · simp only [createWsTicket, isValidWsTicket]
    rw [if_neg hsecneg]
    rw [lastSplit_append _ (hmacdot secret (toBase36 t ++ '.' :: nonce))]
    simp only [ite_not, if_true]
    rw [firstSplit_append _ (toBase36_no_dot t)]
    simp [parse36_toBase36]
  · intro m hm
    simp only [isValidWsTicket]
    rw [if_neg hsecneg]
    rw [lastSplit_append _ hm]
    simp only [ite_not]
    by_cases heq : m = hmac secret ('.' :: nonce)
    · rw [if_pos (by rw [heq])]
      rw [show firstSplit '.' ('.' :: nonce) = some ([], nonce) from by simp [firstSplit]]
      simp [parse36]
    · rw [if_neg (fun hcontra => heq (by
        have h2 := List.append_cancel_left hcontra
        injection h2))]
  · intro m hm hne
    simp only [isValidWsTicket]
    rw [if_neg hsecneg]
    rw [lastSplit_append _ hm]
    simp only [ite_not]
    rw [if_neg (fun hcontra => hne (by
      have h2 := List.append_cancel_left hcontra
      injection h2))]
  · intro secret2 ticket h2
    simp only [isValidWsTicket]
    rw [if_pos h2]

/-- Witness for C3: a 32-character secret, nonce `n`, a constant
dot-free MAC function, issue time 5 ms and validation time 10000 ms —
inside the window, so the genuine ticket validates; plus concrete
instances of the rejection conjuncts. -/
theorem wsTicket_validity_witness :
    (32 ≤ ("0123456789abcdef0123456789abcdef").data.length ∧
      isValidWsTicket (fun _ _ => ['m', 'a', 'c']) ("0123456789abcdef0123456789abcdef").data
          10000
          (createWsTicket (fun _ _ => ['m', 'a', 'c'])
            ("0123456789abcdef0123456789abcdef").data 5 ['n']) =
        decide ((10000 : ℤ) - (5 : ℕ) < TICKET_TTL_MS)) ∧
    isValidWsTicket (fun _ _ => ['m', 'a', 'c']) ("0123456789abcdef0123456789abcdef").data
        10000 (('.' :: ['n']) ++ '.' :: ['m', 'a', 'c']) = false ∧
    isValidWsTicket (fun _ _ => ['m', 'a', 'c']) ("0123456789abcdef0123456789abcdef").data
        10000 ((toBase36 5 ++ '.' :: ['n']) ++ '.' :: ['X']) = false :=
  ⟨⟨by decide,
    (wsTicket_validity (fun _ _ => ['m', 'a', 'c']) ("0123456789abcdef0123456789abcdef").data
      5 10000 ['n'] (by decide) (by decide) (by intro s p; simp)).1⟩,
   (wsTicket_validity (fun _ _ => ['m', 'a', 'c']) ("0123456789abcdef0123456789abcdef").data
      5 10000 ['n'] (by decide) (by decide) (by intro s p; simp)).2.1
     ['m', 'a', 'c'] (by decide),
   (wsTicket_validity (fun _ _ => ['m', 'a', 'c']) ("0123456789abcdef0123456789abcdef").data
      5 10000 ['n'] (by decide) (by decide) (by intro s p; simp)).2.2.1
     ['X'] (by decide) (by decide)⟩

end Gateway.WsTicket

namespace Gateway.Crypto

theorem hexVal_digitChar {d : ℕ} (h : d < 16) :
    hexVal? (WsTicket.digitChar36 d) = some d := by
  interval_cases d <;> decide

theorem hexDecode_hexEncode {bs : List ℕ} (h : ∀ b ∈ bs, b < 256) :
    hexDecode (hexEncode bs) = bs := by
  induction bs with
  | nil => rfl
  | cons b rest ih =>
    have hb : b < 256 := h b (by simp)
    simp only [hexEncode, hexDecode]
    rw [hexVal_digitChar (by omega), hexVal_digitChar (Nat.mod_lt _ (by omega))]
    simp only []
    rw [ih (fun x hx => h x (by simp [hx]))]
    congr 1
    omega

theorem hexEncode_no_colon {bs : List ℕ} (h : ∀ b ∈ bs, b < 256) :
    ':' ∉ hexEncode bs := by
  induction bs with
  | nil => simp [hexEncode]
  | cons b rest ih =>
    have hb : b < 256 := h b (by simp)
    simp only [hexEncode, List.mem_cons, not_or]
    refine ⟨?_, ?_, ih (fun x hx => h x (by simp [hx]))⟩
    · intro hc
      have h2 := hexVal_digitChar (show b / 16 < 16 by omega)
      rw [← hc] at h2
      rw [show hexVal? ':' = none from rfl] at h2
      exact Option.noConfusion h2
    · intro hc
      have h2 := hexVal_digitChar (show b % 16 < 16 from Nat.mod_lt _ (by omega))
      rw [← hc] at h2
      rw [show hexVal? ':' = none from rfl] at h2
      exact Option.noConfusion h2

theorem hexEncode_ne_nil {bs : List ℕ} (h : bs ≠ []) : hexEncode bs ≠ [] := by
  cases bs with
  | nil => exact absurd rfl h
  | cons b rest => simp [hexEncode]

theorem splitAll_three {A B C : List Char} (hA : ':' ∉ A) (hB : ':' ∉ B) (hC : ':' ∉ C) :
    splitAll ':' (A ++ ':' :: (B ++ ':' :: C)) = [A, B, C] := by
  rw [splitAll_append _ hA, splitAll_append _ hB, splitAll_of_not_mem hC]

/-- C4 (amended): with a valid key, `decrypt (encrypt p) = p` for every
plaintext including the empty string; replacing the tag segment by any
colon-free hex string that decodes to different tag bytes — in
particular any single hex-digit change of different value — yields
*AuthenticationFailed*, and likewise replacing the ciphertext segment
by any colon-free hex string that decodes to different ciphertext
bytes.  (A change that keeps the decoded bytes equal — uppercasing a
hex letter — is accepted, and a change to `:` yields *InvalidFormat*
instead: see the counterexample.)  The AES-GCM core enters through the
hypotheses: decryption inverts encryption at this iv/plaintext, bytes
are below 256, the iv and the tag are non-empty (the code uses a
12-byte iv and a 16-byte tag), and the tag authenticates only this
ciphertext. -/
theorem crypto_roundtrip_and_tamper
    (enc : List ℕ → String → List ℕ) (dec : List ℕ → List ℕ → String)
    (tagOf : List ℕ → List ℕ → List ℕ) (iv : List ℕ) (p : String)
    (hdec : dec iv (enc iv p) = p)
    (hivb : ∀ b ∈ iv, b < 256) (hivne : iv ≠ [])
    (hctb : ∀ b ∈ enc iv p, b < 256)
    (htagb : ∀ b ∈ tagOf iv (enc iv p), b < 256)
    (htagne : tagOf iv (enc iv p) ≠ [])
    (htaginj : ∀ ct2 : List ℕ, tagOf iv ct2 = tagOf iv (enc iv p) → ct2 = enc iv p) :
    (decrypt dec tagOf (encrypt enc tagOf iv p) = .ok p) ∧
    (∀ tagHex2 : List Char, ':' ∉ tagHex2 → tagHex2 ≠ [] →
      hexDecode tagHex2 ≠ tagOf iv (enc iv p) →
      decrypt dec tagOf
        (hexEncode iv ++ ':' :: (tagHex2 ++ ':' :: hexEncode (enc iv p))) =
        .error .authenticationFailed) ∧
    (∀ ctHex2 : List Char, ':' ∉ ctHex2 →
      hexDecode ctHex2 ≠ enc iv p →
      decrypt dec tagOf
        (hexEncode iv ++ ':' :: (hexEncode (tagOf iv (enc iv p)) ++ ':' :: ctHex2)) =
        .error .authenticationFailed) := by
  refine ⟨?_, ?_, ?_⟩
  · simp only [encrypt, decrypt,
      splitAll_three (hexEncode_no_colon hivb) (hexEncode_no_colon htagb)
        (hexEncode_no_colon hctb)]
    rw [if_neg (by
      rintro (h | h)
      · exact hexEncode_ne_nil hivne h
      · exact hexEncode_ne_nil htagne h)]
    rw [hexDecode_hexEncode hivb, hexDecode_hexEncode htagb, hexDecode_hexEncode hctb]
    rw [if_pos rfl, hdec]
  · intro tagHex2 hcolon hne htag
    simp only [decrypt,
      splitAll_three (hexEncode_no_colon hivb) hcolon (hexEncode_no_colon hctb)]
    rw [if_neg (by
      rintro (h | h)
      · exact hexEncode_ne_nil hivne h
      · exact hne h)]
    rw [hexDecode_hexEncode hivb, hexDecode_hexEncode hctb]
    rw [if_neg (fun hcontra => htag hcontra.symm)]
  · intro ctHex2 hcolon hct
    simp only [decrypt,
      splitAll_three (hexEncode_no_colon hivb) (hexEncode_no_colon htagb) hcolon]
    rw [if_neg (by
      rintro (h | h)
      · exact hexEncode_ne_nil hivne h
      · exact hexEncode_ne_nil htagne h)]
    rw [hexDecode_hexEncode hivb, hexDecode_hexEncode htagb]
    rw [if_neg (fun hcontra => hct (htaginj _ hcontra))]

end Gateway.Crypto

namespace Gateway.Crypto

theorem concat_inj_aux {ct2 : List ℕ} (h : ct2 ++ [171] = [104, 105] ++ [171]) :
    ct2 = [104, 105] := by
  have h2 := congrArg List.dropLast h
  simpa using h2

/-- Witness for C4 (amended): a concrete reversible byte cipher with
tag `ct ++ [171]`, iv `[1]` and plaintext `hi`: the round trip
succeeds, and replacing the tag segment by `ff` (which decodes to
different bytes) fails with *AuthenticationFailed*. -/
theorem crypto_roundtrip_and_tamper_witness :
    decrypt (fun _ ct => String.mk (ct.map Char.ofNat)) (fun _ ct => ct ++ [171])
        (encrypt (fun _ p => p.data.map Char.toNat) (fun _ ct => ct ++ [171]) [1] "hi") =
      .ok "hi" ∧
    decrypt (fun _ ct => String.mk (ct.map Char.ofNat)) (fun _ ct => ct ++ [171])
        (hexEncode [1] ++ ':' :: (("ff").data ++ ':' :: hexEncode [104, 105])) =
      .error .authenticationFailed :=
  ⟨(crypto_roundtrip_and_tamper (fun _ p => p.data.map Char.toNat)
      (fun _ ct => String.mk (ct.map Char.ofNat)) (fun _ ct => ct ++ [171]) [1] "hi"
      rfl (by decide) (by decide) (by decide) (by decide) (by decide)
      (fun ct2 h => concat_inj_aux h)).1,
   (crypto_roundtrip_and_tamper (fun _ p => p.data.map Char.toNat)
      (fun _ ct => String.mk (ct.map Char.ofNat)) (fun _ ct => ct ++ [171]) [1] "hi"
      rfl (by decide) (by decide) (by decide) (by decide) (by decide)
      (fun ct2 h => concat_inj_aux h)).2.1
     ("ff").data (by decide) (by decide) (by decide)⟩

/-- Counterexample for C4 as stated: uppercasing the hex letter at
position 7 of the encoded value — a single-character change inside the
tag segment — leaves the decoded tag bytes unchanged, because Node's
hex decoding is case-insensitive, so `decrypt` succeeds and returns
the plaintext instead of failing with *AuthenticationFailed*. -/
theorem crypto_tamper_counterexample :
    encrypt (fun _ p => p.data.map Char.toNat) (fun _ ct => ct ++ [171]) [1] "hi" =
      ("01:6869ab:6869").data ∧
    ("01:6869Ab:6869").data = (("01:6869ab:6869").data).set 7 'A' ∧
    ("01:6869Ab:6869").data ≠ ("01:6869ab:6869").data ∧
    decrypt (fun _ ct => String.mk (ct.map Char.ofNat)) (fun _ ct => ct ++ [171])
        ("01:6869Ab:6869").data = .ok "hi" := by
  refine ⟨by decide, by decide, by decide, ?_⟩
  rfl

end Gateway.Crypto
